import Mathlib

/-!
Verification of the gradient-descent optimizer
`run_many_iters_of_gradient_descent` from `py/autograd_demo.ipynb`.

The parameter state handled by the optimizer is, per the function's
docstring, a scalar float or a 1-D numpy array; we model scalars with
exact rationals.  numpy's element-wise subtraction may raise a shape
error on incompatible 1-D lengths, so it is `Option`-valued here;
scalar-times-value never fails.  The Python `history` dict of four
parallel lists becomes a four-field structure.  The `for iter_id in
range(n_iters)` loop becomes structural recursion on the remaining
iteration count, carrying the current `iter_id`.

A second, store-passing embedding (`Store`, `gdLoopSt`,
`run_many_iters_of_gradient_descent_st`) makes the object-level
behaviour explicit: `copy.deepcopy` allocates a fresh cell, every numpy
arithmetic result and every gradient result is a fresh allocation, and
the history records references.  It is used to state the frame property
(the caller's initial-state object is never written) and determinism of
the observable values.
-/

namespace AutogradDemo

/-- A numeric value as accepted by the optimizer: a scalar float or a
1-D numpy array, with reals modelled as exact rationals. -/
inductive NDVal where
  | scalar (v : ℚ)
  | arr (vs : List ℚ)
deriving DecidableEq, Repr

/-- The numpy shape of a value: scalar (shape `()`) or 1-D (shape `(n,)`). -/
inductive NDShape where
  | sscalar
  | sarr (n : Nat)
deriving DecidableEq, Repr

/-- Shape of a value. -/
def NDVal.shape : NDVal → NDShape
  | .scalar _ => .sscalar
  | .arr vs => .sarr vs.length

/-- numpy scalar-times-value `c * x`, element-wise (broadcast over 1-D). -/
def NDVal.smul (c : ℚ) : NDVal → NDVal
  | .scalar v => .scalar (c * v)
  | .arr vs => .arr (vs.map (fun v => c * v))

/-- numpy element-wise subtraction `x - y`.  Scalars broadcast against
1-D arrays, as does a length-1 array; incompatible 1-D lengths raise a
shape error, modelled as `none`. -/
def NDVal.sub : NDVal → NDVal → Option NDVal
  | .scalar a, .scalar b => some (.scalar (a - b))
  | .scalar a, .arr ys => some (.arr (ys.map (fun b => a - b)))
  | .arr xs, .scalar b => some (.arr (xs.map (fun a => a - b)))
  | .arr xs, .arr ys =>
      if xs.length = ys.length then
        some (.arr (List.zipWith (fun a b => a - b) xs ys))
      else if xs.length = 1 then
        some (.arr (ys.map (fun b => xs.headD 0 - b)))
      else if ys.length = 1 then
        some (.arr (xs.map (fun a => a - ys.headD 0)))
      else none

/-- The `history` dict created by the optimizer: four parallel
append-only lists keyed `iter`, `f`, `x_D`, `g_D`. -/
structure History where
  iter : List Nat
  f : List ℚ
  x_D : List NDVal
  g_D : List NDVal
deriving DecidableEq, Repr

/-- The initial empty history `dict(iter=[], f=[], x_D=[], g_D=[])`. -/
def emptyHistory : History := ⟨[], [], [], []⟩

/-- One round of the four `history[...].append(...)` statements. -/
def History.push (h : History) (i : Nat) (fv : ℚ) (xv gv : NDVal) : History :=
  ⟨h.iter ++ [i], h.f ++ [fv], h.x_D ++ [xv], h.g_D ++ [gv]⟩

/-- The body of `for iter_id in range(n_iters)`: `fuel` iterations
remain and the current index is `iter_id`.  When `iter_id > 0` the
state is updated to `x_D - step_size * g(x_D)` (which may raise a shape
error); then `(iter_id, f(x_D), x_D, g(x_D))` is appended to the
history. -/
def gdLoop (f : NDVal → ℚ) (g : NDVal → NDVal) (step_size : ℚ) :
    Nat → Nat → NDVal → History → Option (NDVal × History)
  | 0, _, x_D, history => some (x_D, history)
  | fuel + 1, iter_id, x_D, history =>
      match (if iter_id > 0 then x_D.sub (NDVal.smul step_size (g x_D))
             else some x_D) with
      | none => none
      | some x' =>
          gdLoop f g step_size fuel (iter_id + 1) x'
            (history.push iter_id (f x') x' (g x'))

/-- `run_many_iters_of_gradient_descent(f, g, init_x_D, n_iters,
step_size)`: deep-copy the initial vector (a value copy here), run the
loop from `iter_id = 0` with an empty history, return `(x_D, history)`.
`none` models the numpy shape error propagating out of the loop. -/
def run_many_iters_of_gradient_descent (f : NDVal → ℚ) (g : NDVal → NDVal)
    (init_x_D : NDVal) (n_iters : Nat) (step_size : ℚ) :
    Option (NDVal × History) :=
  gdLoop f g step_size n_iters 0 init_x_D emptyHistory

/-- The sequence of states produced by the update
`x ← x - step_size * g(x)` starting from `x`: `fuel` further states,
`none` as soon as one update raises. -/
def gdTraj (g : NDVal → NDVal) (step_size : ℚ) :
    Nat → NDVal → Option (List NDVal)
  | 0, _ => some []
  | fuel + 1, x =>
      match x.sub (NDVal.smul step_size (g x)) with
      | none => none
      | some y => (gdTraj g step_size fuel y).map (fun l => y :: l)

/-- Modelled from the spec's words in claim C1: the state obtained
"after applying `n` update steps of the form
`state - step_size * g(state)`" to a start state. -/
def specApplyUpdates (g : NDVal → NDVal) (step_size : ℚ) :
    Nat → NDVal → Option NDVal
  | 0, x => some x
  | n + 1, x =>
      match x.sub (NDVal.smul step_size (g x)) with
      | none => none
      | some y => specApplyUpdates g step_size n y

/-- An object store: the Python heap cells holding the numeric objects
handled by the optimizer. -/
structure Store where
  cells : List NDVal
deriving DecidableEq, Repr

/-- Read the object behind a reference. -/
def Store.read (st : Store) (r : Nat) : NDVal :=
  st.cells.getD r (NDVal.scalar 0)

/-- Allocate a fresh object; returns the new store and the fresh
reference.  Allocation never writes an existing cell. -/
def Store.alloc (st : Store) (v : NDVal) : Store × Nat :=
  (Store.mk (st.cells ++ [v]), st.cells.length)

/-- The history dict at the object level: `x_D` and `g_D` hold
references to array objects (Python appends the objects themselves);
iteration indices and objective values are immutable scalars kept by
value. -/
structure HistoryRefs where
  iter : List Nat
  f : List ℚ
  x_D : List Nat
  g_D : List Nat
deriving DecidableEq, Repr

/-- Object-level round of the four `append` statements. -/
def HistoryRefs.push (h : HistoryRefs) (i : Nat) (fv : ℚ) (xr gr : Nat) :
    HistoryRefs :=
  ⟨h.iter ++ [i], h.f ++ [fv], h.x_D ++ [xr], h.g_D ++ [gr]⟩

/-- Store-passing loop body.  When `iter_id > 0` the numpy expression
`x_D - step_size * g(x_D)` produces a freshly allocated array which
`x_D` is rebound to; the recorded gradient `g(x_D)` is likewise a fresh
allocation.  No existing cell is ever overwritten. -/
def gdLoopSt (f : NDVal → ℚ) (g : NDVal → NDVal) (s : ℚ) :
    Nat → Nat → Store → Nat → HistoryRefs →
      Option (Store × Nat × HistoryRefs)
  | 0, _, st, xr, hist => some (st, xr, hist)
  | fuel + 1, iter_id, st, xr, hist =>
      match (if iter_id > 0
             then ((st.read xr).sub (NDVal.smul s (g (st.read xr)))).map st.alloc
             else some (st, xr)) with
      | none => none
      | some stxr =>
          gdLoopSt f g s fuel (iter_id + 1)
            (stxr.1.alloc (g (stxr.1.read stxr.2))).1 stxr.2
            (hist.push iter_id (f (stxr.1.read stxr.2)) stxr.2
              (stxr.1.alloc (g (stxr.1.read stxr.2))).2)

/-- Object-level `run_many_iters_of_gradient_descent`:
`copy.deepcopy(init_x_D)` allocates a fresh object with the same value,
and the loop starts from that copy. -/
def run_many_iters_of_gradient_descent_st (f : NDVal → ℚ)
    (g : NDVal → NDVal) (st : Store) (init_r : Nat) (n_iters : Nat)
    (step_size : ℚ) : Option (Store × Nat × HistoryRefs) :=
  gdLoopSt f g step_size n_iters 0 (st.alloc (st.read init_r)).1
    (st.alloc (st.read init_r)).2 ⟨[], [], [], []⟩

/-- The values observable from a store-level outcome: the final state's
value and the history with every reference dereferenced. -/
def readOutcome : Option (Store × Nat × HistoryRefs) →
    Option (NDVal × History)
  | none => none
  | some (st, xr, hr) =>
      some (st.read xr,
        ⟨hr.iter, hr.f, hr.x_D.map st.read, hr.g_D.map st.read⟩)

/-- Value agreement between an object-level and a value-level history:
same indices and objective values, every reference dereferences to the
recorded value, and every reference is in bounds. -/
def HistAgrees (st : Store) (hr : HistoryRefs) (h : History) : Prop :=
  hr.iter = h.iter ∧ hr.f = h.f ∧
  hr.x_D.map st.read = h.x_D ∧ hr.g_D.map st.read = h.g_D ∧
  (∀ r ∈ hr.x_D, r < st.cells.length) ∧
  (∀ r ∈ hr.g_D, r < st.cells.length)

/-- The demo objective `f(x) = sum(square(x))` (notebook cells defining
`f` before the optimizer is exercised). -/
def fDemo : NDVal → ℚ
  | .scalar v => v * v
  | .arr vs => (vs.map (fun v => v * v)).sum

/-- Its closed-form gradient `g(x) = 2 * x`. -/
def gDemo : NDVal → NDVal := fun x => NDVal.smul 2 x

/-- History of the concrete two-iteration run
`run_many_iters_of_gradient_descent fDemo gDemo (scalar 1) 2 1`. -/
def H2 : History :=
  ⟨[0, 1], [1, 1], [.scalar 1, .scalar (-1)], [.scalar 2, .scalar (-2)]⟩

/-- A one-object store holding the caller's array. -/
def ST0 : Store := ⟨[.arr [1, 2]]⟩

/-- The store after the two-iteration object-level run on `ST0`. -/
def STfin : Store :=
  ⟨[.arr [1, 2], .arr [1, 2], .arr [2, 4], .arr [-1, -2], .arr [-2, -4]]⟩

/-- The reference-level history of that object-level run. -/
def HRfin : HistoryRefs := ⟨[0, 1], [5, 5], [1, 3], [2, 4]⟩

/-- A differently laid-out store holding the same array value at
reference 1. -/
def STB : Store := ⟨[.scalar 7, .arr [1, 2]]⟩

/-- Unfolding the loop from any positive iteration index: every
remaining iteration performs an update first, so the history receives
exactly the update trajectory and the final state is its last element
(or the start state when no iterations remain). -/
lemma gdLoop_eq (f : NDVal → ℚ) (g : NDVal → NDVal) (s : ℚ) :
    ∀ (fuel i : Nat) (x : NDVal) (h : History), 1 ≤ i →
      gdLoop f g s fuel i x h = (gdTraj g s fuel x).map (fun l =>
        ((x :: l).getLast (List.cons_ne_nil _ _),
          History.mk (h.iter ++ List.range' i fuel) (h.f ++ l.map f)
            (h.x_D ++ l) (h.g_D ++ l.map g)))
  | 0, i, x, h, hi => by
      simp [gdLoop, gdTraj]
  | fuel + 1, i, x, h, hi => by
      have hpos : i > 0 := hi
      simp only [gdLoop, gdTraj, if_pos hpos]
      cases hsub : x.sub (NDVal.smul s (g x)) with
      | none => rfl
      | some y =>
          dsimp only
          rw [gdLoop_eq f g s fuel (i + 1) y (h.push i (f y) y (g y)) (by omega)]
          cases htr : gdTraj g s fuel y with
          | none => rfl
          | some l =>
              simp [History.push, List.range'_succ, List.getLast_cons,
                List.append_assoc]

/-- Closed form of a run with at least one iteration: iteration 0
records the initial state untouched; the remaining `n` iterations
record the update trajectory; the final state is the last recorded
state. -/
lemma run_succ (f : NDVal → ℚ) (g : NDVal → NDVal) (x0 : NDVal) (n : Nat)
    (s : ℚ) :
    run_many_iters_of_gradient_descent f g x0 (n + 1) s =
      (gdTraj g s n x0).map (fun l =>
        ((x0 :: l).getLast (List.cons_ne_nil _ _),
          History.mk (List.range (n + 1)) (f x0 :: l.map f)
            (x0 :: l) (g x0 :: l.map g))) := by
  have hstep : run_many_iters_of_gradient_descent f g x0 (n + 1) s =
      gdLoop f g s n 1 x0 (emptyHistory.push 0 (f x0) x0 (g x0)) := rfl
  rw [hstep, gdLoop_eq f g s n 1 x0 _ (le_refl 1)]
  cases htr : gdTraj g s n x0 with
  | none => rfl
  | some l =>
      simp [emptyHistory, History.push, List.range_eq_range', List.range'_succ]

/-- One-step unfolding of the trajectory. -/
lemma gdTraj_succ (g : NDVal → NDVal) (s : ℚ) (fuel : Nat) (x : NDVal) :
    gdTraj g s (fuel + 1) x =
      (x.sub (NDVal.smul s (g x))).bind
        (fun y => (gdTraj g s fuel y).map (fun l => y :: l)) := by
  simp only [gdTraj]
  cases x.sub (NDVal.smul s (g x)) <;> rfl

/-- One-step unfolding of the spec's update iteration. -/
lemma specApplyUpdates_succ (g : NDVal → NDVal) (s : ℚ) (n : Nat) (x : NDVal) :
    specApplyUpdates g s (n + 1) x =
      (x.sub (NDVal.smul s (g x))).bind (specApplyUpdates g s n) := by
  simp only [specApplyUpdates]
  cases x.sub (NDVal.smul s (g x)) <;> rfl

/-- A successful trajectory has exactly `fuel` states. -/
lemma gdTraj_length (g : NDVal → NDVal) (s : ℚ) :
    ∀ (fuel : Nat) (x : NDVal) (l : List NDVal),
      gdTraj g s fuel x = some l → l.length = fuel
  | 0, x, l, h => by
      simp only [gdTraj, Option.some.injEq] at h
      simp [← h]
  | fuel + 1, x, l, h => by
      rw [gdTraj_succ] at h
      rcases hsub : x.sub (NDVal.smul s (g x)) with _ | y <;> rw [hsub] at h
      · cases h
      · simp only [Option.some_bind] at h
        rcases htr : gdTraj g s fuel y with _ | l' <;> rw [htr] at h
        · cases h
        · simp only [Option.map_some', Option.some.injEq] at h
          rw [← h]
          simp [gdTraj_length g s fuel y l' htr]

/-- Consecutive states of a successful trajectory are related by the
update `p - s * g(p)`. -/
lemma gdTraj_chain (g : NDVal → NDVal) (s : ℚ) :
    ∀ (fuel : Nat) (x : NDVal) (l : List NDVal),
      gdTraj g s fuel x = some l →
      ∀ i : Nat, i < l.length →
        ∃ p c, (x :: l)[i]? = some p ∧ l[i]? = some c ∧
          p.sub (NDVal.smul s (g p)) = some c
  | 0, x, l, h => by
      simp only [gdTraj, Option.some.injEq] at h
      intro i hi
      rw [← h] at hi
      exact absurd hi (by simp)
  | fuel + 1, x, l, h => by
      rw [gdTraj_succ] at h
      rcases hsub : x.sub (NDVal.smul s (g x)) with _ | y <;> rw [hsub] at h
      · cases h
      · simp only [Option.some_bind] at h
        rcases htr : gdTraj g s fuel y with _ | l' <;> rw [htr] at h
        · cases h
        · simp only [Option.map_some', Option.some.injEq] at h
          subst h
          intro i hi
          match i with
          | 0 => exact ⟨x, y, by simp, by simp, hsub⟩
          | j + 1 =>
              obtain ⟨p, c, hp, hc, hrel⟩ :=
                gdTraj_chain g s fuel y l' htr j (by
                  simpa using hi)
              exact ⟨p, c, by simpa using hp, by simpa using hc, hrel⟩

/-- The spec-worded update iteration computes the last state of the
trajectory. -/
lemma specApplyUpdates_eq_traj (g : NDVal → NDVal) (s : ℚ) :
    ∀ (fuel : Nat) (x : NDVal),
      specApplyUpdates g s fuel x =
        (gdTraj g s fuel x).map
          (fun l => (x :: l).getLast (List.cons_ne_nil _ _))
  | 0, x => by simp [specApplyUpdates, gdTraj]
  | fuel + 1, x => by
      rw [specApplyUpdates_succ, gdTraj_succ]
      rcases x.sub (NDVal.smul s (g x)) with _ | y
      · rfl
      · simp only [Option.some_bind]
        rw [specApplyUpdates_eq_traj g s fuel y]
        cases gdTraj g s fuel y with
        | none => rfl
        | some l => simp [List.getLast_cons]

/-- Scalar multiplication preserves the shape. -/
lemma smul_shape (c : ℚ) (x : NDVal) : (NDVal.smul c x).shape = x.shape := by
  cases x <;> simp [NDVal.smul, NDVal.shape]

/-- Subtraction of values of equal shape succeeds and preserves the
shape. -/
lemma sub_shape_eq (x y : NDVal) (h : x.shape = y.shape) :
    ∃ z, x.sub y = some z ∧ z.shape = x.shape := by
  cases x with
  | scalar a =>
      cases y with
      | scalar b => exact ⟨.scalar (a - b), rfl, rfl⟩
      | arr ys => simp [NDVal.shape] at h
  | arr xs =>
      cases y with
      | scalar b => simp [NDVal.shape] at h
      | arr ys =>
          simp only [NDVal.shape, NDShape.sarr.injEq] at h
          refine ⟨.arr (List.zipWith (fun a b => a - b) xs ys), ?_, ?_⟩
          · simp [NDVal.sub, h]
          · simp [NDVal.shape, h]

/-- Under a shape-congruent gradient the whole trajectory exists and
keeps the start shape. -/
lemma gdTraj_shape (g : NDVal → NDVal) (s : ℚ)
    (hg : ∀ x, (g x).shape = x.shape) :
    ∀ (fuel : Nat) (x : NDVal),
      ∃ l, gdTraj g s fuel x = some l ∧ ∀ v ∈ l, v.shape = x.shape
  | 0, x => ⟨[], rfl, by simp⟩
  | fuel + 1, x => by
      obtain ⟨y, hy, hys⟩ := sub_shape_eq x (NDVal.smul s (g x))
        (by rw [smul_shape, hg])
      obtain ⟨l, hl, hls⟩ := gdTraj_shape g s hg fuel y
      refine ⟨y :: l, ?_, ?_⟩
      · rw [gdTraj_succ, hy]
        simp [hl]
      · intro v hv
        rcases List.mem_cons.mp hv with hv | hv
        · rw [hv, hys]
        · rw [hls v hv, hys]

/-- One-step unfolding of the store-passing loop. -/
lemma gdLoopSt_succ (f : NDVal → ℚ) (g : NDVal → NDVal) (s : ℚ)
    (fuel iter_id : Nat) (st : Store) (xr : Nat) (hist : HistoryRefs) :
    gdLoopSt f g s (fuel + 1) iter_id st xr hist =
      (if iter_id > 0
       then ((st.read xr).sub (NDVal.smul s (g (st.read xr)))).map st.alloc
       else some (st, xr)).bind
        (fun stxr =>
          gdLoopSt f g s fuel (iter_id + 1)
            (stxr.1.alloc (g (stxr.1.read stxr.2))).1 stxr.2
            (hist.push iter_id (f (stxr.1.read stxr.2)) stxr.2
              (stxr.1.alloc (g (stxr.1.read stxr.2))).2)) := by
  simp only [gdLoopSt]
  cases (if iter_id > 0
         then ((st.read xr).sub (NDVal.smul s (g (st.read xr)))).map st.alloc
         else some (st, xr)) <;> rfl

/-- One-step unfolding of the pure loop. -/
lemma gdLoop_succ (f : NDVal → ℚ) (g : NDVal → NDVal) (s : ℚ)
    (fuel iter_id : Nat) (x : NDVal) (h : History) :
    gdLoop f g s (fuel + 1) iter_id x h =
      (if iter_id > 0 then x.sub (NDVal.smul s (g x)) else some x).bind
        (fun x' =>
          gdLoop f g s fuel (iter_id + 1) x'
            (h.push iter_id (f x') x' (g x'))) := by
  simp only [gdLoop]
  cases (if iter_id > 0 then x.sub (NDVal.smul s (g x)) else some x) <;> rfl

/-- Extending a store leaves reads of existing cells unchanged. -/
lemma read_ext (st : Store) (ext : List NDVal) (r : Nat)
    (hr : r < st.cells.length) :
    (Store.mk (st.cells ++ ext)).read r = st.read r := by
  simp [Store.read, List.getD, List.getElem?_append_left hr]

/-- Reading a freshly allocated cell yields the allocated value. -/
lemma read_alloc_self (st : Store) (v : NDVal) :
    (st.alloc v).1.read (st.alloc v).2 = v := by
  simp [Store.alloc, Store.read, List.getD]

/-- Allocation preserves reads of existing cells. -/
lemma read_alloc_old (st : Store) (v : NDVal) (r : Nat)
    (hr : r < st.cells.length) :
    (st.alloc v).1.read r = st.read r :=
  read_ext st [v] r hr

/-- The store only grows along the loop: every cell present at entry is
still present, with the same content, at exit. -/
lemma gdLoopSt_ext (f : NDVal → ℚ) (g : NDVal → NDVal) (s : ℚ) :
    ∀ (fuel i : Nat) (st : Store) (xr : Nat) (hist : HistoryRefs)
      (st' : Store) (xr' : Nat) (hist' : HistoryRefs),
      gdLoopSt f g s fuel i st xr hist = some (st', xr', hist') →
      ∃ ext, st'.cells = st.cells ++ ext
  | 0, i, st, xr, hist, st', xr', hist', h => by
      simp only [gdLoopSt, Option.some.injEq] at h
      cases h
      exact ⟨[], (List.append_nil _).symm⟩
  | fuel + 1, i, st, xr, hist, st', xr', hist', h => by
      rw [gdLoopSt_succ] at h
      rcases hbr : (if i > 0
          then ((st.read xr).sub (NDVal.smul s (g (st.read xr)))).map st.alloc
          else some (st, xr)) with _ | stxr <;> rw [hbr] at h
      · cases h
      · simp only [Option.some_bind] at h
        obtain ⟨ext, hext⟩ := gdLoopSt_ext f g s fuel (i + 1)
          (stxr.1.alloc (g (stxr.1.read stxr.2))).1 stxr.2
          (hist.push i (f (stxr.1.read stxr.2)) stxr.2
            (stxr.1.alloc (g (stxr.1.read stxr.2))).2) st' xr' hist' h
        have hbase : ∃ ext0, stxr.1.cells = st.cells ++ ext0 := by
          rcases Nat.eq_zero_or_pos i with hi | hi
          · rw [hi] at hbr
            simp only [gt_iff_lt, Nat.lt_irrefl, if_false, Option.some.injEq] at hbr
            exact ⟨[], by rw [← hbr, List.append_nil]⟩
          · rw [if_pos hi] at hbr
            rcases hsub : (st.read xr).sub (NDVal.smul s (g (st.read xr)))
              with _ | v <;> rw [hsub] at hbr
            · cases hbr
            · simp only [Option.map_some', Option.some.injEq] at hbr
              exact ⟨[v], by rw [← hbr]; simp [Store.alloc]⟩
        obtain ⟨ext0, hext0⟩ := hbase
        refine ⟨ext0 ++ [g (stxr.1.read stxr.2)] ++ ext, ?_⟩
        rw [hext]
        simp [Store.alloc, hext0, List.append_assoc]

/-- Agreement is stable under extending the store. -/
lemma histAgrees_ext (st : Store) (ext : List NDVal) (hr : HistoryRefs)
    (h : History) (ha : HistAgrees st hr h) :
    HistAgrees (Store.mk (st.cells ++ ext)) hr h := by
  obtain ⟨h1, h2, h3, h4, h5, h6⟩ := ha
  refine ⟨h1, h2, ?_, ?_, ?_, ?_⟩
  · rw [← h3]
    exact List.map_congr_left (fun r hm => read_ext st ext r (h5 r hm))
  · rw [← h4]
    exact List.map_congr_left (fun r hm => read_ext st ext r (h6 r hm))
  · intro r hm
    have := h5 r hm
    simp only [List.length_append]
    omega
  · intro r hm
    have := h6 r hm
    simp only [List.length_append]
    omega

/-- Agreement is preserved by one round of recording: push the current
state reference and a freshly allocated gradient object. -/
lemma histAgrees_push (st : Store) (hr : HistoryRefs) (h : History)
    (ha : HistAgrees st hr h) (i : Nat) (fv : ℚ) (xr : Nat)
    (hxr : xr < st.cells.length) (gv : NDVal) :
    HistAgrees (st.alloc gv).1 (hr.push i fv xr (st.alloc gv).2)
      (h.push i fv (st.read xr) gv) := by
  have ha' : HistAgrees (st.alloc gv).1 hr h := histAgrees_ext st [gv] hr h ha
  obtain ⟨h1, h2, h3, h4, h5, h6⟩ := ha'
  refine ⟨?_, ?_, ?_, ?_, ?_, ?_⟩
  · simp [HistoryRefs.push, History.push, h1]
  · simp [HistoryRefs.push, History.push, h2]
  · simp only [HistoryRefs.push, History.push, List.map_append, List.map_cons,
      List.map_nil, h3]
    rw [read_alloc_old st gv xr hxr]
  · simp only [HistoryRefs.push, History.push, List.map_append, List.map_cons,
      List.map_nil, h4]
    rw [read_alloc_self]
  · intro r hm
    simp only [HistoryRefs.push, List.mem_append, List.mem_singleton] at hm
    rcases hm with hm | hm
    · exact h5 r hm
    · subst hm
      simp [Store.alloc]
      omega
  · intro r hm
    simp only [HistoryRefs.push, List.mem_append, List.mem_singleton] at hm
    rcases hm with hm | hm
    · exact h6 r hm
    · subst hm
      simp [Store.alloc]

/-- Simulation: the store-passing loop and the value-level loop produce
the same observable values. -/
lemma gdLoopSt_agrees (f : NDVal → ℚ) (g : NDVal → NDVal) (s : ℚ) :
    ∀ (fuel i : Nat) (st : Store) (xr : Nat) (hr : HistoryRefs)
      (h : History), xr < st.cells.length → HistAgrees st hr h →
      readOutcome (gdLoopSt f g s fuel i st xr hr) =
        gdLoop f g s fuel i (st.read xr) h
  | 0, i, st, xr, hr, h, hxr, ha => by
      obtain ⟨h1, h2, h3, h4, h5, h6⟩ := ha
      simp [gdLoopSt, gdLoop, readOutcome, h1, h2, h3, h4]
  | fuel + 1, i, st, xr, hr, h, hxr, ha => by
      rw [gdLoopSt_succ, gdLoop_succ]
      rcases Nat.eq_zero_or_pos i with hi | hi
      · subst hi
        simp only [gt_iff_lt, lt_self_iff_false, ite_false, Option.some_bind]
        have hbound : xr < (st.alloc (g (st.read xr))).1.cells.length := by
          simp [Store.alloc]
          omega
        rw [gdLoopSt_agrees f g s fuel 1 (st.alloc (g (st.read xr))).1 xr
          (hr.push 0 (f (st.read xr)) xr (st.alloc (g (st.read xr))).2)
          (h.push 0 (f (st.read xr)) (st.read xr) (g (st.read xr)))
          hbound
          (histAgrees_push st hr h ha 0 (f (st.read xr)) xr hxr
            (g (st.read xr)))]
        rw [read_alloc_old st (g (st.read xr)) xr hxr]
      · simp only [if_pos hi]
        cases hsub : (st.read xr).sub (NDVal.smul s (g (st.read xr))) with
        | none => simp [readOutcome]
        | some v =>
            simp only [Option.map_some', Option.some_bind, read_alloc_self]
            have hxr1 : (st.alloc v).2 < (st.alloc v).1.cells.length := by
              simp [Store.alloc]
            have ha1 : HistAgrees (st.alloc v).1 hr h :=
              histAgrees_ext st [v] hr h ha
            have hpush := histAgrees_push (st.alloc v).1 hr h ha1 i
              (f ((st.alloc v).1.read (st.alloc v).2)) (st.alloc v).2 hxr1
              (g ((st.alloc v).1.read (st.alloc v).2))
            rw [read_alloc_self] at hpush
            have hbound : (st.alloc v).2 <
                ((st.alloc v).1.alloc (g v)).1.cells.length := by
              simp [Store.alloc]
            rw [gdLoopSt_agrees f g s fuel (i + 1)
              ((st.alloc v).1.alloc (g v)).1 (st.alloc v).2
              (hr.push i (f v) (st.alloc v).2 ((st.alloc v).1.alloc (g v)).2)
              (h.push i (f v) v (g v)) hbound hpush]
            rw [read_alloc_old (st.alloc v).1 (g v) (st.alloc v).2 hxr1,
              read_alloc_self]

/-- Whatever the store layout, the object-level run observes exactly
the value-level run on the value behind the initial reference. -/
lemma run_st_agrees (f : NDVal → ℚ) (g : NDVal → NDVal) (st : Store)
    (r : Nat) (n : Nat) (s : ℚ) :
    readOutcome (run_many_iters_of_gradient_descent_st f g st r n s) =
      run_many_iters_of_gradient_descent f g (st.read r) n s := by
  unfold run_many_iters_of_gradient_descent_st
    run_many_iters_of_gradient_descent
  rw [gdLoopSt_agrees f g s n 0 (st.alloc (st.read r)).1
    (st.alloc (st.read r)).2 ⟨[], [], [], []⟩ emptyHistory
    (by simp [Store.alloc]) ⟨rfl, rfl, rfl, rfl, by simp, by simp⟩]
  rw [read_alloc_self]

/-- One quadratic update with step size `1/10` contracts a scalar state
by the factor `4/5`, so the last trajectory state is geometric. -/
lemma gDemo_final : ∀ (k : Nat) (a : ℚ),
    (gdTraj gDemo (1/10) k (NDVal.scalar a)).map
      (fun l => (NDVal.scalar a :: l).getLast (List.cons_ne_nil _ _)) =
      some (NDVal.scalar ((4/5) ^ k * a))
  | 0, a => by simp [gdTraj]
  | k + 1, a => by
      have hstep : (NDVal.scalar a).sub
          (NDVal.smul (1/10) (gDemo (NDVal.scalar a))) =
          some (NDVal.scalar ((4/5) * a)) := by
        simp only [gDemo, NDVal.smul, NDVal.sub, Option.some.injEq,
          NDVal.scalar.injEq]
        ring
      rw [gdTraj_succ, hstep]
      simp only [Option.some_bind, Option.map_map]
      have hcomp :
          ((fun l => (NDVal.scalar a :: l).getLast (List.cons_ne_nil _ _)) ∘
            (fun l => NDVal.scalar ((4/5) * a) :: l)) =
          (fun l => (NDVal.scalar ((4/5) * a) :: l).getLast
            (List.cons_ne_nil _ _)) := by
        funext l
        simp [List.getLast_cons]
      rw [hcomp, gDemo_final k ((4/5) * a)]
      congr 2
      ring

/-- Concrete evaluation shared by the witnesses: the two-iteration run
on the scalar demo problem. -/
lemma run2_eval :
    run_many_iters_of_gradient_descent fDemo gDemo (NDVal.scalar 1) 2 1 =
      some (NDVal.scalar (-1), H2) := by
  norm_num [run_many_iters_of_gradient_descent, gdLoop, fDemo, gDemo,
    NDVal.sub, NDVal.smul, History.push, emptyHistory, H2]

/-- Claim C8: with `n_iters = 0` the loop body never runs, so the
optimizer returns the initial state unchanged together with an empty
history (all four sequences empty). -/
theorem gd_zero_iters (f : NDVal → ℚ) (g : NDVal → NDVal) (x0 : NDVal)
    (s : ℚ) :
    run_many_iters_of_gradient_descent f g x0 0 s =
      some (x0, History.mk [] [] [] []) := rfl

/-- Claim C1, counterexample: with `n_iters = 1` the optimizer returns
the initial state (no update is applied at iteration 0), while applying
`n_iters = 1` update steps to the same input yields a different state,
so the returned first component is not the state after `n_iters`
updates. -/
theorem gd_c1_counterexample :
    (run_many_iters_of_gradient_descent fDemo gDemo (NDVal.scalar 1) 1
        1).map Prod.fst = some (NDVal.scalar 1) ∧
    specApplyUpdates gDemo 1 1 (NDVal.scalar 1) =
      some (NDVal.scalar (-1)) ∧
    (some (NDVal.scalar 1) : Option NDVal) ≠ some (NDVal.scalar (-1)) :=
  ⟨by norm_num [run_many_iters_of_gradient_descent, gdLoop, fDemo, gDemo,
      NDVal.sub, NDVal.smul, History.push, emptyHistory],
    by norm_num [specApplyUpdates, gDemo, NDVal.sub, NDVal.smul],
    by norm_num⟩

/-- Claim C1 as amended: for `n_iters ≥ 1` the first returned component
is the state obtained after applying `n_iters - 1` update steps
`state ← state - step_size * g(state)` to the initial state (the update
is skipped at iteration 0), and the run fails exactly when that update
iteration fails. -/
theorem gd_final_state_updates (f : NDVal → ℚ) (g : NDVal → NDVal)
    (x0 : NDVal) (n : Nat) (s : ℚ) (hn : 1 ≤ n) :
    (run_many_iters_of_gradient_descent f g x0 n s).map Prod.fst =
      specApplyUpdates g s (n - 1) x0 := by
  obtain ⟨k, rfl⟩ : ∃ k, n = k + 1 := ⟨n - 1, by omega⟩
  rw [run_succ, specApplyUpdates_eq_traj]
  simp only [Nat.add_sub_cancel, Option.map_map]
  rfl

/-- Witness for the amended claim C1 at a concrete input. -/
theorem gd_final_state_updates_witness :
    1 ≤ 2 ∧
    (run_many_iters_of_gradient_descent fDemo gDemo (NDVal.scalar 1) 2
        1).map Prod.fst = specApplyUpdates gDemo 1 (2 - 1) (NDVal.scalar 1) :=
  ⟨by decide, gd_final_state_updates fDemo gDemo (NDVal.scalar 1) 2 1
    (by decide)⟩

/-- Claim C3: a completed run with `n_iters = N` returns a history
whose four sequences have exactly `N` entries, the iteration indices
being `0, 1, ..., N-1` in order. -/
theorem gd_history_extent (f : NDVal → ℚ) (g : NDVal → NDVal)
    (x0 : NDVal) (n : Nat) (s : ℚ) (x' : NDVal) (h : History)
    (hrun : run_many_iters_of_gradient_descent f g x0 n s =
      some (x', h)) :
    h.iter = List.range n ∧ h.f.length = n ∧ h.x_D.length = n ∧
      h.g_D.length = n := by
  cases n with
  | zero =>
      have h0 : run_many_iters_of_gradient_descent f g x0 0 s =
          some (x0, History.mk [] [] [] []) := rfl
      rw [h0, Option.some.injEq] at hrun
      injection hrun with h1 h2
      rw [← h2]
      simp
  | succ k =>
      rw [run_succ] at hrun
      rcases htr : gdTraj g s k x0 with _ | l <;> rw [htr] at hrun
      · cases hrun
      · simp only [Option.map_some', Option.some.injEq] at hrun
        injection hrun with h1 h2
        have hlen : l.length = k := gdTraj_length g s k x0 l htr
        rw [← h2]
        simp [hlen]

/-- Witness for claim C3 at a concrete input. -/
theorem gd_history_extent_witness :
    run_many_iters_of_gradient_descent fDemo gDemo (NDVal.scalar 1) 2 1 =
      some (NDVal.scalar (-1), H2) ∧
    (H2.iter = List.range 2 ∧ H2.f.length = 2 ∧ H2.x_D.length = 2 ∧
      H2.g_D.length = 2) :=
  ⟨run2_eval, gd_history_extent fDemo gDemo (NDVal.scalar 1) 2 1
    (NDVal.scalar (-1)) H2 run2_eval⟩

/-- Claim C10: for a completed run with `n_iters ≥ 1` the returned
final state is exactly the last parameter snapshot recorded in the
history: no update is applied after the final record. -/
theorem gd_final_is_last_snapshot (f : NDVal → ℚ) (g : NDVal → NDVal)
    (x0 : NDVal) (n : Nat) (s : ℚ) (x' : NDVal) (h : History)
    (hn : 1 ≤ n)
    (hrun : run_many_iters_of_gradient_descent f g x0 n s =
      some (x', h)) :
    h.x_D.getLast? = some x' := by
  obtain ⟨k, rfl⟩ : ∃ k, n = k + 1 := ⟨n - 1, by omega⟩
  rw [run_succ] at hrun
  rcases htr : gdTraj g s k x0 with _ | l <;> rw [htr] at hrun
  · cases hrun
  · simp only [Option.map_some', Option.some.injEq] at hrun
    injection hrun with h1 h2
    rw [← h2]
    simp only []
    rw [List.getLast?_eq_getLast _ (List.cons_ne_nil x0 l), h1]

/-- Witness for claim C10 at a concrete input. -/
theorem gd_final_is_last_snapshot_witness :
    (1 ≤ 2 ∧
      run_many_iters_of_gradient_descent fDemo gDemo (NDVal.scalar 1) 2 1 =
        some (NDVal.scalar (-1), H2)) ∧
    H2.x_D.getLast? = some (NDVal.scalar (-1)) :=
  ⟨⟨by decide, run2_eval⟩, gd_final_is_last_snapshot fDemo gDemo
    (NDVal.scalar 1) 2 1 (NDVal.scalar (-1)) H2 (by decide) run2_eval⟩

/-- Claim C2: in a completed run with `n_iters ≥ 1`, the snapshot
recorded at iteration 0 is the initial input state, and each later
snapshot is the previous one minus `step_size` times the gradient at
the previous one, element-wise. -/
theorem gd_snapshot_recurrence (f : NDVal → ℚ) (g : NDVal → NDVal)
    (x0 : NDVal) (n : Nat) (s : ℚ) (x' : NDVal) (h : History)
    (hn : 1 ≤ n)
    (hrun : run_many_iters_of_gradient_descent f g x0 n s =
      some (x', h)) :
    h.x_D[0]? = some x0 ∧
    ∀ i : Nat, 1 ≤ i → i ≤ n - 1 →
      ∃ p c, h.x_D[i - 1]? = some p ∧ h.x_D[i]? = some c ∧
        p.sub (NDVal.smul s (g p)) = some c := by
  obtain ⟨k, rfl⟩ : ∃ k, n = k + 1 := ⟨n - 1, by omega⟩
  rw [run_succ] at hrun
  rcases htr : gdTraj g s k x0 with _ | l <;> rw [htr] at hrun
  · cases hrun
  · simp only [Option.map_some', Option.some.injEq] at hrun
    injection hrun with h1 h2
    constructor
    · rw [← h2]
      simp
    · intro i hi1 hi2
      obtain ⟨j, rfl⟩ : ∃ j, i = j + 1 := ⟨i - 1, by omega⟩
      have hlen : l.length = k := gdTraj_length g s k x0 l htr
      have hj : j < l.length := by omega
      obtain ⟨p, c, hp, hc, hrel⟩ := gdTraj_chain g s k x0 l htr j hj
      refine ⟨p, c, ?_, ?_, hrel⟩
      · rw [← h2]
        simpa using hp
      · rw [← h2]
        simpa using hc

/-- Witness for claim C2 at a concrete input. -/
theorem gd_snapshot_recurrence_witness :
    (1 ≤ 2 ∧
      run_many_iters_of_gradient_descent fDemo gDemo (NDVal.scalar 1) 2 1 =
        some (NDVal.scalar (-1), H2)) ∧
    (H2.x_D[0]? = some (NDVal.scalar 1) ∧
      ∀ i : Nat, 1 ≤ i → i ≤ 2 - 1 →
        ∃ p c, H2.x_D[i - 1]? = some p ∧ H2.x_D[i]? = some c ∧
          p.sub (NDVal.smul 1 (gDemo p)) = some c) :=
  ⟨⟨by decide, run2_eval⟩, gd_snapshot_recurrence fDemo gDemo
    (NDVal.scalar 1) 2 1 (NDVal.scalar (-1)) H2 (by decide) run2_eval⟩

/-- Claim C4: in a completed run the history is aligned: the iteration
indices are `0, ..., n-1`, entry `i`'s objective value is `f` of entry
`i`'s snapshot, and entry `i`'s gradient is `g` of entry `i`'s
snapshot. -/
theorem gd_history_alignment (f : NDVal → ℚ) (g : NDVal → NDVal)
    (x0 : NDVal) (n : Nat) (s : ℚ) (x' : NDVal) (h : History)
    (hrun : run_many_iters_of_gradient_descent f g x0 n s =
      some (x', h)) :
    h.iter = List.range n ∧ h.f = h.x_D.map f ∧ h.g_D = h.x_D.map g := by
  cases n with
  | zero =>
      have h0 : run_many_iters_of_gradient_descent f g x0 0 s =
          some (x0, History.mk [] [] [] []) := rfl
      rw [h0, Option.some.injEq] at hrun
      injection hrun with h1 h2
      rw [← h2]
      simp
  | succ k =>
      rw [run_succ] at hrun
      rcases htr : gdTraj g s k x0 with _ | l <;> rw [htr] at hrun
      · cases hrun
      · simp only [Option.map_some', Option.some.injEq] at hrun
        injection hrun with h1 h2
        rw [← h2]
        simp

/-- Witness for claim C4 at a concrete input. -/
theorem gd_history_alignment_witness :
    run_many_iters_of_gradient_descent fDemo gDemo (NDVal.scalar 1) 2 1 =
      some (NDVal.scalar (-1), H2) ∧
    (H2.iter = List.range 2 ∧ H2.f = H2.x_D.map fDemo ∧
      H2.g_D = H2.x_D.map gDemo) :=
  ⟨run2_eval, gd_history_alignment fDemo gDemo (NDVal.scalar 1) 2 1
    (NDVal.scalar (-1)) H2 run2_eval⟩

/-- Claim C5: on the one-dimensional quadratic `f(x) = x^2` with
gradient `2x`, starting at `x0 = 5`, with step size `1/10` and 50
iterations, the optimizer completes and its final state is within
`1/1000` of `0`. -/
theorem gd_quadratic_converges :
    ∃ (q : ℚ) (h : History),
      run_many_iters_of_gradient_descent fDemo gDemo (NDVal.scalar 5) 50
          (1/10) = some (NDVal.scalar q, h) ∧ |q - 0| ≤ 1/1000 := by
  have hrun := run_succ fDemo gDemo (NDVal.scalar 5) 49 (1/10)
  have hfin := gDemo_final 49 5
  rcases htr : gdTraj gDemo (1/10) 49 (NDVal.scalar 5) with _ | l <;>
    rw [htr] at hrun hfin
  · cases hfin
  · simp only [Option.map_some', Option.some.injEq] at hrun hfin
    refine ⟨(4/5) ^ 49 * 5,
      History.mk (List.range (49 + 1))
        (fDemo (NDVal.scalar 5) :: l.map fDemo) (NDVal.scalar 5 :: l)
        (gDemo (NDVal.scalar 5) :: l.map gDemo), ?_, ?_⟩
    · rw [show (50 : Nat) = 49 + 1 from rfl, hrun, hfin]
    · rw [sub_zero, abs_of_nonneg (by positivity)]
      norm_num

/-- Claim C9: when the gradient function returns values of the shape of
its argument, the run completes and the state shape is invariant: every
recorded snapshot, every recorded gradient and the final state have the
initial state's shape. -/
theorem gd_shape_invariant (f : NDVal → ℚ) (g : NDVal → NDVal)
    (x0 : NDVal) (n : Nat) (s : ℚ)
    (hg : ∀ x, (g x).shape = x.shape) :
    ∃ x' h, run_many_iters_of_gradient_descent f g x0 n s =
        some (x', h) ∧ x'.shape = x0.shape ∧
      (∀ v ∈ h.x_D, v.shape = x0.shape) ∧
      ∀ v ∈ h.g_D, v.shape = x0.shape := by
  cases n with
  | zero => exact ⟨x0, History.mk [] [] [] [], rfl, rfl, by simp, by simp⟩
  | succ k =>
      obtain ⟨l, htr, hls⟩ := gdTraj_shape g s hg k x0
      refine ⟨(x0 :: l).getLast (List.cons_ne_nil _ _),
        History.mk (List.range (k + 1)) (f x0 :: l.map f) (x0 :: l)
          (g x0 :: l.map g), ?_, ?_, ?_, ?_⟩
      · rw [run_succ, htr]
        rfl
      · have hmem := List.getLast_mem (List.cons_ne_nil x0 l)
        rcases List.mem_cons.mp hmem with hm | hm
        · rw [hm]
        · exact hls _ hm
      · intro v hv
        rcases List.mem_cons.mp hv with hm | hm
        · rw [hm]
        · exact hls _ hm
      · intro v hv
        rcases List.mem_cons.mp hv with hm | hm
        · rw [hm, hg]
        · obtain ⟨u, hu, rfl⟩ := List.mem_map.mp hm
          rw [hg]
          exact hls u hu

/-- Witness for claim C9 at a concrete input. -/
theorem gd_shape_invariant_witness :
    (∀ x, (gDemo x).shape = x.shape) ∧
    ∃ x' h,
      run_many_iters_of_gradient_descent fDemo gDemo
          (NDVal.arr [6, 4, -3, -5]) 2 1 = some (x', h) ∧
        x'.shape = (NDVal.arr [6, 4, -3, -5]).shape ∧
      (∀ v ∈ h.x_D, v.shape = (NDVal.arr [6, 4, -3, -5]).shape) ∧
      ∀ v ∈ h.g_D, v.shape = (NDVal.arr [6, 4, -3, -5]).shape :=
  ⟨fun x => smul_shape 2 x, gd_shape_invariant fDemo gDemo
    (NDVal.arr [6, 4, -3, -5]) 2 1 (fun x => smul_shape 2 x)⟩

/-- Concrete evaluation shared by the witnesses: the two-iteration
object-level run on the one-object store. -/
lemma runSt2_eval :
    run_many_iters_of_gradient_descent_st fDemo gDemo ST0 0 2 1 =
      some (STfin, 3, HRfin) := by
  norm_num [run_many_iters_of_gradient_descent_st, gdLoopSt, fDemo,
    gDemo, NDVal.sub, NDVal.smul, HistoryRefs.push, Store.alloc,
    Store.read, List.getD, ST0, STfin, HRfin]

/-- Claim C6: a completed run never changes the value of the caller's
initial-state object: `copy.deepcopy` severs aliasing and every later
numpy result is a fresh allocation, so the cell the caller passed reads
the same after the run as before. -/
theorem gd_no_caller_mutation (f : NDVal → ℚ) (g : NDVal → NDVal)
    (st : Store) (r : Nat) (n : Nat) (s : ℚ) (st' : Store) (xr' : Nat)
    (hr' : HistoryRefs) (hrlt : r < st.cells.length)
    (hrun : run_many_iters_of_gradient_descent_st f g st r n s =
      some (st', xr', hr')) :
    st'.read r = st.read r := by
  unfold run_many_iters_of_gradient_descent_st at hrun
  obtain ⟨ext, hext⟩ := gdLoopSt_ext f g s n 0 (st.alloc (st.read r)).1
    (st.alloc (st.read r)).2 ⟨[], [], [], []⟩ st' xr' hr' hrun
  have hcells : st'.cells = st.cells ++ ([st.read r] ++ ext) := by
    rw [hext]
    simp [Store.alloc]
  have hsame : st'.read r =
      (Store.mk (st.cells ++ ([st.read r] ++ ext))).read r := by
    rw [← hcells]
  rw [hsame, read_ext st ([st.read r] ++ ext) r hrlt]

/-- Witness for claim C6 at a concrete input. -/
theorem gd_no_caller_mutation_witness :
    (0 < ST0.cells.length ∧
      run_many_iters_of_gradient_descent_st fDemo gDemo ST0 0 2 1 =
        some (STfin, 3, HRfin)) ∧
    STfin.read 0 = ST0.read 0 :=
  ⟨⟨by decide, runSt2_eval⟩, gd_no_caller_mutation fDemo gDemo ST0 0 2 1
    STfin 3 HRfin (by decide) runSt2_eval⟩

/-- Claim C7: the optimizer is deterministic: two runs on the same
input values (`f`, `g`, the initial state's value, `n_iters`,
`step_size`) observe identical final states and identical histories,
whatever the stores' layouts. -/
theorem gd_deterministic (f : NDVal → ℚ) (g : NDVal → NDVal)
    (st1 st2 : Store) (r1 r2 : Nat) (n : Nat) (s : ℚ)
    (hx : st1.read r1 = st2.read r2) :
    readOutcome (run_many_iters_of_gradient_descent_st f g st1 r1 n s) =
      readOutcome (run_many_iters_of_gradient_descent_st f g st2 r2 n s) := by
  rw [run_st_agrees, run_st_agrees, hx]

/-- Witness for claim C7 at a concrete input: the same array value
stored at different references in differently shaped stores. -/
theorem gd_deterministic_witness :
    ST0.read 0 = STB.read 1 ∧
    readOutcome (run_many_iters_of_gradient_descent_st fDemo gDemo ST0 0
        2 1) =
      readOutcome (run_many_iters_of_gradient_descent_st fDemo gDemo STB
        1 2 1) :=
  ⟨by decide, gd_deterministic fDemo gDemo ST0 STB 0 1 2 1 (by decide)⟩

end AutogradDemo
